import Mathlib

/-!
Shallow embedding of two cellular automata:

* `Day11` embeds `src/2020/day-11/src/main.rs`, a rectangular "seating"
  automaton over cells `Floor | Empty | Occupied`, stored as a row-major
  vector with `row_count`/`column_count` (Rust `i32`, embedded as `Int`).
  The only unbounded construct in the source, the `loop` inside
  `Layout::has_adjacent_occupant`, is embedded with explicit fuel; the
  fuel value `defaultFuel` is proved sufficient for well-formed layouts.

* `Day24` embeds `src/2020/day-24/src/main.rs`, a hexagonal tile automaton
  over axial coordinates stored as a pair of Rust `i8` values, with the
  black-tile set stored as a `BitSet` of packed 16-bit addresses.  `i8`
  arithmetic is embedded with two's-complement wrapping (`wrap8`), the
  release-profile semantics of the source's `+=` operations.
-/

namespace Day11

/-- The three cell states of the rectangular grid (Rust `enum Cell`). -/
inductive Cell
  | Floor
  | Empty
  | Occupied
deriving DecidableEq

/-- One changeset entry (Rust `struct Change`). -/
structure Change where
  address : Nat
  cell : Cell
deriving DecidableEq

/-- Rust `struct Layout`: the map is a row-major dense vector of cells. -/
structure Layout where
  lineOfSight : Bool
  map : List Cell
  columnCount : Int
  rowCount : Int
deriving DecidableEq

/-- `Layout::get_address`: `row * column_count + column` converted to `usize`.
The `Int.toNat` models the `try_into::<usize>()`; all uses proved below are
on nonnegative indices, where it is the exact conversion. -/
def Layout.getAddress (l : Layout) (row column : Int) : Nat :=
  (row * l.columnCount + column).toNat

/-- `Layout::get_cell`: total version, with a junk default off the map
(the source panics there; the theorems below only use in-bounds reads,
see `Layout.getCell?`). -/
def Layout.getCell (l : Layout) (row column : Int) : Cell :=
  l.map.getD (l.getAddress row column) Cell.Floor

/-- `Layout::get_cell`, checked: `none` models the two possible panics
(`try_into::<usize>()` on a negative index, and `Vec` indexing out of
bounds). -/
def Layout.getCell? (l : Layout) (row column : Int) : Option Cell :=
  if 0 ≤ row * l.columnCount + column then l.map[l.getAddress row column]? else none

/-- Fuel that is proved sufficient for the `has_adjacent_occupant` walk on
well-formed layouts (`c10`). -/
def Layout.defaultFuel (l : Layout) : Nat :=
  (l.rowCount + l.columnCount).toNat + 2

/-- `Layout::has_adjacent_occupant`, fuelled and checked.  The source's
`loop` advances `(row, column)` by `(delta_y, delta_x)`, returns `false` on
leaving the grid or at the first `Empty` cell, `true` at the first
`Occupied` cell, and keeps walking through `Floor` only in line-of-sight
mode.  `none` models either fuel exhaustion or an out-of-bounds read. -/
def Layout.hasAdjacentOccupant? (l : Layout) :
    Nat → Int → Int → Int → Int → Option Bool
  | 0, _, _, _, _ => none
  | fuel + 1, row, column, dx, dy =>
    let row' := row + dy
    let column' := column + dx
    if row' < 0 ∨ l.rowCount ≤ row' then some false
    else if column' < 0 ∨ l.columnCount ≤ column' then some false
    else
      match l.getCell? row' column' with
      | none => none
      | some Cell.Floor =>
        if l.lineOfSight then l.hasAdjacentOccupant? fuel row' column' dx dy
        else some false
      | some Cell.Empty => some false
      | some Cell.Occupied => some true

/-- Total wrapper for `Layout::has_adjacent_occupant`, run at `defaultFuel`
(proved sufficient for well-formed layouts in `c10`). -/
def Layout.hasAdjacentOccupant (l : Layout) (row column dx dy : Int) : Bool :=
  (l.hasAdjacentOccupant? l.defaultFuel row column dx dy).getD false

/-- The eight `(delta_x, delta_y)` pairs, in the source's iteration order
(`delta_y` outer, `delta_x` inner, skipping `(0, 0)`). -/
def directions : List (Int × Int) :=
  [(-1, -1), (0, -1), (1, -1), (-1, 0), (1, 0), (-1, 1), (0, 1), (1, 1)]

/-- Loop body of `Layout::count_adjacent_occupants`: the early returns of
the source (`expecting_zero`, or the count reaching 5) become a
non-recursive branch. -/
def Layout.countAux (l : Layout) (row column : Int) (expectingZero : Bool) :
    List (Int × Int) → Int → Int
  | [], count => count
  | d :: rest, count =>
    if l.hasAdjacentOccupant row column d.1 d.2 then
      if expectingZero ∨ 5 ≤ count + 1 then count + 1
      else l.countAux row column expectingZero rest (count + 1)
    else l.countAux row column expectingZero rest count

/-- `Layout::count_adjacent_occupants`. -/
def Layout.countAdjacentOccupants (l : Layout) (row column : Int)
    (expectingZero : Bool) : Int :=
  l.countAux row column expectingZero directions 0

/-- Reference full scan: the number of the eight directions in which an
occupant is found, with no early exit. -/
def Layout.occupantDirectionCount (l : Layout) (row column : Int) : Nat :=
  List.countP (fun d => l.hasAdjacentOccupant row column d.1 d.2) directions

/-- `abandonment_threshold` in `Layout::collect_changes`. -/
def Layout.abandonmentThreshold (l : Layout) : Int :=
  if l.lineOfSight then 5 else 4

/-- Per-cell body of `Layout::collect_changes`. -/
def Layout.cellChange (l : Layout) (row column : Int) : Option Change :=
  match l.getCell row column with
  | Cell.Floor => none
  | Cell.Empty =>
    if l.countAdjacentOccupants row column true = 0 then
      some ⟨l.getAddress row column, Cell.Occupied⟩
    else none
  | Cell.Occupied =>
    if l.abandonmentThreshold ≤ l.countAdjacentOccupants row column false then
      some ⟨l.getAddress row column, Cell.Empty⟩
    else none

/-- The integers `0, 1, ..., n-1`, embedding the Rust range `0..n`. -/
def intRange (n : Int) : List Int :=
  (List.range n.toNat).map Nat.cast

/-- `Layout::collect_changes`: row-major scan of the snapshot. -/
def Layout.collectChanges (l : Layout) : List Change :=
  (intRange l.rowCount).flatMap
    (fun row => (intRange l.columnCount).filterMap (fun column => l.cellChange row column))

/-- Reference variant of `cellChange` in which the neighbor counts come
from the full scan `occupantDirectionCount` instead of the early-exiting
`countAdjacentOccupants` (claim C6 compares the two). -/
def Layout.cellChangeFull (l : Layout) (row column : Int) : Option Change :=
  match l.getCell row column with
  | Cell.Floor => none
  | Cell.Empty =>
    if (l.occupantDirectionCount row column : Int) = 0 then
      some ⟨l.getAddress row column, Cell.Occupied⟩
    else none
  | Cell.Occupied =>
    if l.abandonmentThreshold ≤ (l.occupantDirectionCount row column : Int) then
      some ⟨l.getAddress row column, Cell.Empty⟩
    else none

/-- `collectChanges` with full-scan neighbor counts (claim C6). -/
def Layout.collectChangesFull (l : Layout) : List Change :=
  (intRange l.rowCount).flatMap
    (fun row => (intRange l.columnCount).filterMap (fun column => l.cellChangeFull row column))

/-- `Layout::apply_changes`: write every entry into the map. -/
def Layout.applyChanges (l : Layout) (changes : List Change) : Layout :=
  { l with map := changes.foldl (fun m c => m.set c.address c.cell) l.map }

/-- `Layout::evolve`: `false` and the unchanged layout when the changeset
is empty, otherwise `true` and the updated layout. -/
def Layout.evolve (l : Layout) : Bool × Layout :=
  let changes := l.collectChanges
  if changes.isEmpty then (false, l)
  else (true, l.applyChanges changes)

/-- `n` iterations of the `while layout.evolve() {}` loop body. -/
def Layout.evolveN (l : Layout) : Nat → Layout
  | 0 => l
  | n + 1 => (l.evolveN n).evolve.2

/-- `Layout::count_occupants`. -/
def Layout.countOccupants (l : Layout) : Int :=
  (l.map.map (fun c => match c with | Cell.Occupied => 1 | _ => 0)).sum

/-- One full generation: the changeset computed from the snapshot,
applied in full. -/
def Layout.nextGen (l : Layout) : Layout :=
  l.applyChanges l.collectChanges

/-- Measure for the line-of-sight walk: how many further steps the walk
can take before leaving the grid along the strict direction component. -/
def walkMeasure (l : Layout) (dx dy row column : Int) : Nat :=
  if dy = 1 then (l.rowCount - row).toNat
  else if dy = -1 then (row + 1).toNat
  else if dx = 1 then (l.columnCount - column).toNat
  else (column + 1).toNat

/-- 3×3 grid of all empty seats (`L`), adjacent policy. -/
def allEmpty3 : Layout :=
  ⟨false, List.replicate 9 Cell.Empty, 3, 3⟩

/-- 3×3 grid of all occupied seats (`#`), adjacent policy. -/
def allOccupied3 : Layout :=
  ⟨false, List.replicate 9 Cell.Occupied, 3, 3⟩

/-- The 3×3 fixed point actually reached from `allEmpty3`: corners
occupied, everything else empty. -/
def corners3 : Layout :=
  ⟨false,
   [Cell.Occupied, Cell.Empty, Cell.Occupied,
    Cell.Empty, Cell.Empty, Cell.Empty,
    Cell.Occupied, Cell.Empty, Cell.Occupied], 3, 3⟩

/-- 4×4 grid, floor at the corners, every seat occupied: every seat has at
least four occupied neighbors, so the whole seat set vacates, then
reoccupies, forever (period-2 oscillation under the adjacent policy). -/
def oscillator4 : Layout :=
  ⟨false,
   [Cell.Floor, Cell.Occupied, Cell.Occupied, Cell.Floor,
    Cell.Occupied, Cell.Occupied, Cell.Occupied, Cell.Occupied,
    Cell.Occupied, Cell.Occupied, Cell.Occupied, Cell.Occupied,
    Cell.Floor, Cell.Occupied, Cell.Occupied, Cell.Floor], 4, 4⟩

/-- The other phase of the oscillation: every seat empty. -/
def oscillator4Vacated : Layout :=
  ⟨false,
   [Cell.Floor, Cell.Empty, Cell.Empty, Cell.Floor,
    Cell.Empty, Cell.Empty, Cell.Empty, Cell.Empty,
    Cell.Empty, Cell.Empty, Cell.Empty, Cell.Empty,
    Cell.Floor, Cell.Empty, Cell.Empty, Cell.Floor], 4, 4⟩

/-- 1×1 grid holding a single floor cell: a trivial fixed point. -/
def floorOnly1 : Layout :=
  ⟨false, [Cell.Floor], 1, 1⟩

/-- 1×1 grid holding a single occupied seat. -/
def occupiedOnly1 : Layout :=
  ⟨false, [Cell.Occupied], 1, 1⟩

end Day11

namespace Day24

/-- The six hex directions (Rust `enum Direction`). -/
inductive Direction
  | East
  | Southeast
  | Southwest
  | West
  | Northwest
  | Northeast
deriving DecidableEq

/-- The order produced by `Direction::from_index` for indices `0..6`,
used by `get_adjacent_tiles`. -/
def hexDirections : List Direction :=
  [Direction.East, Direction.Southeast, Direction.Southwest,
   Direction.West, Direction.Northwest, Direction.Northeast]

/-- Two's-complement wrap into the `i8` range `[-128, 127]`: the behavior
of the source's `i8` `+=`/`-=` in a release build. -/
def wrap8 (z : Int) : Int :=
  (z + 128) % 256 - 128

/-- Axial hex coordinate (Rust `struct Coordinate { x: i8, y: i8 }`). -/
structure Coordinate where
  x : Int
  y : Int
deriving DecidableEq

/-- `Coordinate::step`: the six axial step vectors, each component wrapped
to the `i8` range. -/
def Coordinate.step (c : Coordinate) (d : Direction) : Coordinate :=
  match d with
  | Direction.East => ⟨wrap8 (c.x + 2), c.y⟩
  | Direction.Southeast => ⟨wrap8 (c.x + 1), wrap8 (c.y - 2)⟩
  | Direction.Southwest => ⟨wrap8 (c.x - 1), wrap8 (c.y - 2)⟩
  | Direction.West => ⟨wrap8 (c.x - 2), c.y⟩
  | Direction.Northwest => ⟨wrap8 (c.x - 1), wrap8 (c.y + 2)⟩
  | Direction.Northeast => ⟨wrap8 (c.x + 1), wrap8 (c.y + 2)⟩

/-- The same six step vectors applied as unbounded integers, the
mathematically intended walk without the `i8` width constraint.  Used to
state where the wrapped walk `Coordinate.step` diverges from it (C8). -/
def stepIdeal (p : Int × Int) (d : Direction) : Int × Int :=
  match d with
  | Direction.East => (p.1 + 2, p.2)
  | Direction.Southeast => (p.1 + 1, p.2 - 2)
  | Direction.Southwest => (p.1 - 1, p.2 - 2)
  | Direction.West => (p.1 - 2, p.2)
  | Direction.Northwest => (p.1 - 1, p.2 + 2)
  | Direction.Northeast => (p.1 + 1, p.2 + 2)

/-- `get_coordinate`: accumulate direction steps from the origin. -/
def getCoordinate (ds : List Direction) : Coordinate :=
  ds.foldl Coordinate.step ⟨0, 0⟩

/-- The unbounded-integer walk from the origin (reference for C8). -/
def walkIdeal (ds : List Direction) : Int × Int :=
  ds.foldl stepIdeal (0, 0)

/-- `Coordinate::get_address`: `(x + 128) << 8 | (y + 128)` as a `u16`.
The `Int.toNat` models the `try_into::<u16>()`, exact on the `i8` range. -/
def Coordinate.getAddress (c : Coordinate) : Nat :=
  ((c.x + 128).toNat <<< 8) ||| (c.y + 128).toNat

/-- `Coordinate::from_address`: high byte minus bias, low byte minus bias. -/
def Coordinate.fromAddress (a : Nat) : Coordinate :=
  ⟨(((a >>> 8) &&& 255 : Nat) : Int) - 128, ((a &&& 255 : Nat) : Int) - 128⟩

/-- `get_adjacent_tiles`: one step in each of the six directions. -/
def getAdjacentTiles (c : Coordinate) : List Coordinate :=
  hexDirections.map c.step

/-- Loop body of `count_adjacent_black_tiles`; the source's early return
once the count exceeds 2 becomes a non-recursive branch. -/
def countBlackAux (blackTiles : Finset Nat) : List Coordinate → Nat → Nat
  | [], count => count
  | t :: rest, count =>
    if t.getAddress ∈ blackTiles then
      if 2 < count + 1 then count + 1
      else countBlackAux blackTiles rest (count + 1)
    else countBlackAux blackTiles rest count

/-- `count_adjacent_black_tiles`. -/
def countAdjacentBlackTiles (c : Coordinate) (blackTiles : Finset Nat) : Nat :=
  countBlackAux blackTiles (getAdjacentTiles c) 0

/-- Reference full scan: how many of the six neighbor addresses of the
tile at address `a` are black, with no early exit. -/
def blackNeighborCount (a : Nat) (blackTiles : Finset Nat) : Nat :=
  (getAdjacentTiles (Coordinate.fromAddress a)).countP
    (fun t => decide (t.getAddress ∈ blackTiles))

/-- First phase of `evolve_tiles`: black tiles pushed onto `tiles_to_flip`
(black-neighbor count `0` or `> 2`, evaluated against the pre-step set). -/
def blackFlips (blackTiles : Finset Nat) : Finset Nat :=
  blackTiles.filter (fun a =>
    countAdjacentBlackTiles (Coordinate.fromAddress a) blackTiles = 0 ∨
    2 < countAdjacentBlackTiles (Coordinate.fromAddress a) blackTiles)

/-- The `white_tiles` set of `evolve_tiles`: every neighbor address of a
black tile, minus the black tiles (`difference_with`). -/
def whiteTiles (blackTiles : Finset Nat) : Finset Nat :=
  (blackTiles.biUnion
    (fun a => ((getAdjacentTiles (Coordinate.fromAddress a)).map Coordinate.getAddress).toFinset))
  \ blackTiles

/-- Second phase of `evolve_tiles`: white candidates pushed onto
`tiles_to_flip` (black-neighbor count exactly 2). -/
def whiteFlips (blackTiles : Finset Nat) : Finset Nat :=
  (whiteTiles blackTiles).filter (fun a =>
    countAdjacentBlackTiles (Coordinate.fromAddress a) blackTiles = 2)

/-- One step of the final toggle loop of `evolve_tiles`:
`if !black_tiles.remove(t) { black_tiles.insert(t) }`. -/
def toggle (s : Finset Nat) (a : Nat) : Finset Nat :=
  if a ∈ s then s.erase a else insert a s

/-- The `tiles_to_flip` list: black flips (in `BitSet` iteration order,
i.e. increasing) followed by white flips. -/
def tilesToFlip (blackTiles : Finset Nat) : List Nat :=
  (blackFlips blackTiles).sort (· ≤ ·) ++ (whiteFlips blackTiles).sort (· ≤ ·)

/-- `evolve_tiles`: apply every toggle of `tiles_to_flip` to the set. -/
def evolveTiles (blackTiles : Finset Nat) : Finset Nat :=
  (tilesToFlip blackTiles).foldl toggle blackTiles

/-- `blackFlips` with the full-scan count (claim C6). -/
def blackFlipsFull (blackTiles : Finset Nat) : Finset Nat :=
  blackTiles.filter (fun a =>
    blackNeighborCount a blackTiles = 0 ∨ 2 < blackNeighborCount a blackTiles)

/-- `whiteFlips` with the full-scan count (claim C6). -/
def whiteFlipsFull (blackTiles : Finset Nat) : Finset Nat :=
  (whiteTiles blackTiles).filter (fun a => blackNeighborCount a blackTiles = 2)

/-- `evolve_tiles` with full-scan counts (claim C6). -/
def evolveTilesFull (blackTiles : Finset Nat) : Finset Nat :=
  ((blackFlipsFull blackTiles).sort (· ≤ ·) ++ (whiteFlipsFull blackTiles).sort (· ≤ ·)).foldl
    toggle blackTiles

/-- Sixty-four `e` tokens: an input line whose true coordinate (x = 128)
leaves the representable bias range. -/
def easts64 : List Direction :=
  List.replicate 64 Direction.East

end Day24

namespace Day11

/-- When the changeset is empty, `evolve` reports `false` and hands back
the unchanged layout. -/
theorem evolve_of_isEmpty (l : Layout) (h : l.collectChanges.isEmpty) :
    l.evolve = (false, l) := by
  unfold Layout.evolve
  simp [h]

/-- `evolve` reports `false` exactly when the changeset is empty. -/
theorem evolve_fst_false_iff (l : Layout) :
    l.evolve.1 = false ↔ l.collectChanges.isEmpty := by
  unfold Layout.evolve
  by_cases h : l.collectChanges.isEmpty <;> simp [h]

/-- A layout on which `evolve` reports `false` is a fixed point of the
iteration. -/
theorem evolveN_of_evolve_false (l : Layout) (h : l.evolve.1 = false) :
    ∀ n : Nat, l.evolveN n = l := by
  have he : l.evolve = (false, l) :=
    evolve_of_isEmpty l ((evolve_fst_false_iff l).mp h)
  intro n
  induction n with
  | zero => rfl
  | succ n ih =>
    show (l.evolveN n).evolve.2 = l
    rw [ih, he]

/-- C3: once `evolve()` returns `false` for the rectangular automaton,
every subsequent call also returns `false`, and the grid state and the
`countOccupants()` result are unchanged by every subsequent call. -/
theorem c3_fixed_point_idempotence (l : Layout) (h : l.evolve.1 = false) :
    ∀ n : Nat, l.evolveN n = l ∧ (l.evolveN n).evolve.1 = false ∧
      (l.evolveN n).countOccupants = l.countOccupants := by
  intro n
  have hn := evolveN_of_evolve_false l h n
  exact ⟨hn, by rw [hn]; exact h, by rw [hn]⟩

/-- Witness for C3 at the 1×1 floor-only grid. -/
theorem c3_witness :
    floorOnly1.evolve.1 = false ∧ floorOnly1.evolveN 5 = floorOnly1 :=
  ⟨by decide, (c3_fixed_point_idempotence floorOnly1 (by decide) 5).1⟩

/-- C5 counterexample: one generation from the all-empty 3×3 grid does
give the all-occupied grid, but `evolve` on the all-occupied grid returns
`true` (the center and the four edge-center seats have at least four
occupied neighbors), so the all-occupied state is not stable. -/
theorem c5_counterexample :
    allEmpty3.evolve.2 = allOccupied3 ∧ allOccupied3.evolve.1 = true := by
  decide

/-- C5 amended: the 3×3 all-`L` grid becomes all-occupied (count 9) after
one generation, but that state changes again: generation two vacates the
center and edge-center seats, reaching the corners-only fixed point with
occupant count 4, which is then stable forever. -/
theorem c5_amended_convergence :
    allEmpty3.evolve.1 = true ∧ allEmpty3.evolve.2 = allOccupied3 ∧
    allOccupied3.countOccupants = 9 ∧
    allOccupied3.evolve.1 = true ∧
    allEmpty3.evolveN 2 = corners3 ∧
    corners3.countOccupants = 4 ∧
    corners3.evolve.1 = false ∧
    (∀ n : Nat, corners3.evolveN n = corners3) := by
  refine ⟨by decide, by decide, by decide, by decide, by decide, by decide,
    by decide, ?_⟩
  exact evolveN_of_evolve_false corners3 (by decide)

/-- C9 counterexample: the all-occupied 4×4 grid with floor corners is a
period-2 point of the generation map that is not a fixed point, so the
`while evolve()` loop started on it never terminates. -/
theorem c9_counterexample :
    oscillator4.evolveN 2 = oscillator4 ∧ oscillator4.evolveN 1 ≠ oscillator4 := by
  decide

/-- C9 amended: termination is not guaranteed for every well-formed finite
grid: under the adjacent policy the `oscillator4` grid oscillates with
period 2 and `evolve()` returns `true` at every generation. -/
theorem c9_amended_nontermination :
    ∀ n : Nat, (oscillator4.evolveN n).evolve.1 = true := by
  have h1 : oscillator4.evolve.2 = oscillator4Vacated := by decide
  have h2 : oscillator4Vacated.evolve.2 = oscillator4 := by decide
  have key : ∀ n : Nat, oscillator4.evolveN n = oscillator4 ∨
      oscillator4.evolveN n = oscillator4Vacated := by
    intro n
    induction n with
    | zero => exact Or.inl rfl
    | succ n ih =>
      rcases ih with h | h
      · right
        show (oscillator4.evolveN n).evolve.2 = _
        rw [h, h1]
      · left
        show (oscillator4.evolveN n).evolve.2 = _
        rw [h, h2]
  intro n
  rcases key n with h | h <;> rw [h] <;> decide

end Day11

namespace Day24

/-- C7 counterexample: a single southeast step from the origin reaches
`(1, -2)`, whose `x` is odd. -/
theorem c7_counterexample :
    getCoordinate [Direction.Southeast] = ⟨1, -2⟩ ∧
    ¬ Even (getCoordinate [Direction.Southeast]).x := by
  decide

/-- C7 amended: along every walk from the origin, `y` stays even and `x`
has the parity of `y / 2` (so `x` itself is odd half the time). -/
theorem c7_amended_parity : ∀ ds : List Direction,
    Even (getCoordinate ds).y ∧
    Even ((getCoordinate ds).x + (getCoordinate ds).y / 2) := by
  have inv : ∀ (c : Coordinate) (d : Direction),
      (Even c.y ∧ Even (c.x + c.y / 2)) →
      (Even (c.step d).y ∧ Even ((c.step d).x + (c.step d).y / 2)) := by
    rintro ⟨x, y⟩ d ⟨hy, hxy⟩
    dsimp only at hy hxy
    rw [Int.even_iff] at hy hxy
    cases d <;> simp only [Coordinate.step, wrap8] <;> refine ⟨?_, ?_⟩ <;>
      rw [Int.even_iff] <;> omega
  have gen : ∀ (ds : List Direction) (c : Coordinate),
      (Even c.y ∧ Even (c.x + c.y / 2)) →
      (Even (ds.foldl Coordinate.step c).y ∧
       Even ((ds.foldl Coordinate.step c).x + (ds.foldl Coordinate.step c).y / 2)) := by
    intro ds
    induction ds with
    | nil => intro c h; exact h
    | cons d rest ih => intro c h; exact ih _ (inv c d h)
  intro ds
  refine gen ds ⟨0, 0⟩ ⟨even_zero, ?_⟩
  norm_num

set_option maxRecDepth 8000 in
/-- C8 counterexample: the 64-`e` line, whose true coordinate `(128, 0)`
lies outside the representable bias range, is not rejected: processing
completes and silently yields the wrapped coordinate `(-128, 0)`. -/
theorem c8_counterexample :
    getCoordinate easts64 = ⟨-128, 0⟩ ∧ walkIdeal easts64 = (128, 0) ∧
    ¬ (-128 ≤ (walkIdeal easts64).1 ∧ (walkIdeal easts64).1 ≤ 127) ∧
    getCoordinate easts64 ≠ ⟨(walkIdeal easts64).1, (walkIdeal easts64).2⟩ := by
  decide

/-- C8 amended: no range validation or abort exists anywhere: stepping is
total, always lands back inside `[-128, 127]`, and agrees with the
intended unbounded step vectors only modulo 256 — an out-of-range step is
silently wrapped rather than diagnosed, during ingestion and during
neighbor enumeration alike. -/
theorem c8_amended_silent_wrap (c : Coordinate) (d : Direction)
    (hx1 : -128 ≤ c.x) (hx2 : c.x ≤ 127) (hy1 : -128 ≤ c.y) (hy2 : c.y ≤ 127) :
    (-128 ≤ (c.step d).x ∧ (c.step d).x ≤ 127 ∧
     -128 ≤ (c.step d).y ∧ (c.step d).y ≤ 127) ∧
    ((c.step d).x - (stepIdeal (c.x, c.y) d).1) % 256 = 0 ∧
    ((c.step d).y - (stepIdeal (c.x, c.y) d).2) % 256 = 0 := by
  obtain ⟨x, y⟩ := c
  dsimp only at hx1 hx2 hy1 hy2
  cases d <;> simp only [Coordinate.step, stepIdeal, wrap8] <;>
    refine ⟨⟨?_, ?_, ?_, ?_⟩, ?_, ?_⟩ <;> omega

/-- Witness for C8's amended statement at the boundary coordinate
`(127, 0)` stepping east, where the wrap actually fires. -/
theorem c8_witness :
    (-128 ≤ ((⟨127, 0⟩ : Coordinate).step Direction.East).x ∧
     ((⟨127, 0⟩ : Coordinate).step Direction.East).x ≤ 127 ∧
     -128 ≤ ((⟨127, 0⟩ : Coordinate).step Direction.East).y ∧
     ((⟨127, 0⟩ : Coordinate).step Direction.East).y ≤ 127) ∧
    (((⟨127, 0⟩ : Coordinate).step Direction.East).x -
      (stepIdeal ((127 : Int), (0 : Int)) Direction.East).1) % 256 = 0 ∧
    (((⟨127, 0⟩ : Coordinate).step Direction.East).y -
      (stepIdeal ((127 : Int), (0 : Int)) Direction.East).2) % 256 = 0 :=
  c8_amended_silent_wrap ⟨127, 0⟩ Direction.East (by decide) (by decide)
    (by decide) (by decide)

end Day24

namespace Day24

theorem shiftLeft_lor_eq (a b : Nat) (h : b < 256) : a <<< 8 ||| b = 256 * a + b := by
  have h256 : (256 : Nat) * a + b = 2 ^ 8 * a + b := by norm_num
  rw [h256]
  apply Nat.eq_of_testBit_eq
  intro i
  rw [Nat.testBit_lor, Nat.testBit_shiftLeft,
    Nat.testBit_mul_pow_two_add a (show b < 2 ^ 8 by omega) i]
  by_cases hi : i < 8
  · have hge : ¬ (i ≥ 8) := by omega
    simp [hi, hge]
  · have hb : b.testBit i = false := by
      apply Nat.testBit_lt_two_pow
      calc b < 256 := h
        _ = 2 ^ 8 := by norm_num
        _ ≤ 2 ^ i := Nat.pow_le_pow_right (by norm_num) (by omega)
    have hge : i ≥ 8 := by omega
    simp [hi, hge, hb]

theorem and255_eq_mod (x : Nat) : x &&& 255 = x % 256 := by
  apply Nat.eq_of_testBit_eq
  intro i
  rw [Nat.testBit_and, show (255 : Nat) = 2 ^ 8 - 1 by norm_num,
    Nat.testBit_two_pow_sub_one, show (256 : Nat) = 2 ^ 8 by norm_num,
    Nat.testBit_mod_two_pow]
  rw [Bool.and_comm]

theorem fromAddress_getAddress (c : Coordinate)
    (hx1 : -128 ≤ c.x) (hx2 : c.x ≤ 127) (hy1 : -128 ≤ c.y) (hy2 : c.y ≤ 127) :
    Coordinate.fromAddress c.getAddress = c := by
  obtain ⟨x, y⟩ := c
  dsimp only at hx1 hx2 hy1 hy2
  unfold Coordinate.getAddress Coordinate.fromAddress
  have hyN : (y + 128).toNat < 256 := by omega
  have hxN : (x + 128).toNat < 256 := by omega
  rw [shiftLeft_lor_eq _ _ hyN]
  have h1 : (256 * (x + 128).toNat + (y + 128).toNat) >>> 8 = (x + 128).toNat := by
    rw [Nat.shiftRight_eq_div_pow]
    have : (2 : Nat) ^ 8 = 256 := by norm_num
    rw [this]
    omega
  rw [h1, and255_eq_mod, and255_eq_mod]
  rw [Coordinate.mk.injEq]
  constructor <;> omega

end Day24

namespace Day11

theorem getAddress_inj (l : Layout) (row column row' column' : Int)
    (hr0 : 0 ≤ row) (hc0 : 0 ≤ column) (hc1 : column < l.columnCount)
    (hr0' : 0 ≤ row') (hc0' : 0 ≤ column') (hc1' : column' < l.columnCount)
    (h : l.getAddress row column = l.getAddress row' column') :
    row = row' ∧ column = column' := by
  unfold Layout.getAddress at h
  have hccpos : 0 < l.columnCount := lt_of_le_of_lt hc0 hc1
  have hm1 : 0 ≤ row * l.columnCount := mul_nonneg hr0 hccpos.le
  have hm2 : 0 ≤ row' * l.columnCount := mul_nonneg hr0' hccpos.le
  have h1 : 0 ≤ row * l.columnCount + column := by linarith
  have h2 : 0 ≤ row' * l.columnCount + column' := by linarith
  have hInt : row * l.columnCount + column = row' * l.columnCount + column' := by
    have hcast := congrArg (fun n : Nat => (n : Int)) h
    simpa [Int.toNat_of_nonneg h1, Int.toNat_of_nonneg h2] using hcast
  have hdvd : l.columnCount ∣ (column - column') :=
    ⟨row' - row, by linear_combination hInt⟩
  have habs : |column - column'| < l.columnCount := by
    rw [abs_lt]
    constructor <;> linarith
  have hcol : column - column' = 0 := Int.eq_zero_of_abs_lt_dvd hdvd habs
  have hrow : row * l.columnCount = row' * l.columnCount := by linarith
  exact ⟨mul_right_cancel₀ (ne_of_gt hccpos) hrow, by linarith⟩

end Day11

/-- C4 -/
theorem c4_address_bijection :
    (∀ c : Day24.Coordinate, -128 ≤ c.x → c.x ≤ 127 → -128 ≤ c.y → c.y ≤ 127 →
      Day24.Coordinate.fromAddress c.getAddress = c) ∧
    (∀ (l : Day11.Layout) (row column row' column' : Int),
      0 ≤ row → row < l.rowCount → 0 ≤ column → column < l.columnCount →
      0 ≤ row' → row' < l.rowCount → 0 ≤ column' → column' < l.columnCount →
      l.getAddress row column = l.getAddress row' column' →
      row = row' ∧ column = column') := by
  constructor
  · exact Day24.fromAddress_getAddress
  · intro l row column row' column' hr0 _ hc0 hc1 hr0' _ hc0' hc1' h
    exact Day11.getAddress_inj l row column row' column' hr0 hc0 hc1 hr0' hc0' hc1' h

/-- Witness for C4 at the hex coordinate (5, -7) and at cell (2, 1) of the
3-by-3 grid. -/
theorem c4_witness :
    Day24.Coordinate.fromAddress (Day24.Coordinate.getAddress ⟨5, -7⟩) = (⟨5, -7⟩ : Day24.Coordinate) ∧
    ((2 : Int) = 2 ∧ (1 : Int) = 1) :=
  ⟨c4_address_bijection.1 ⟨5, -7⟩ (by decide) (by decide) (by decide) (by decide),
   c4_address_bijection.2 Day11.allEmpty3 2 1 2 1 (by decide) (by decide) (by decide)
     (by decide) (by decide) (by decide) (by decide) (by decide) rfl⟩

namespace Day24

/-- The early-exiting counter equals the full scan capped at 3. -/
theorem countBlackAux_eq_min (B : Finset Nat) (ts : List Coordinate) :
    ∀ k : Nat, k < 3 →
      countBlackAux B ts k =
        min (k + ts.countP (fun t => decide (t.getAddress ∈ B))) 3 := by
  induction ts with
  | nil => intro k hk; simp [countBlackAux]; omega
  | cons t rest ih =>
    intro k hk
    by_cases hm : t.getAddress ∈ B
    · by_cases h3 : 2 < k + 1
      · simp [countBlackAux, hm, h3, List.countP_cons]
        omega
      · simp [countBlackAux, hm, h3, List.countP_cons, ih (k + 1) (by omega)]
        omega
    · simp [countBlackAux, hm, List.countP_cons, ih k hk]

/-- `count_adjacent_black_tiles` is the full neighbor count capped at 3. -/
theorem countAdjacentBlackTiles_eq (a : Nat) (B : Finset Nat) :
    countAdjacentBlackTiles (Coordinate.fromAddress a) B =
      min (blackNeighborCount a B) 3 := by
  unfold countAdjacentBlackTiles blackNeighborCount
  simpa using
    countBlackAux_eq_min B (getAdjacentTiles (Coordinate.fromAddress a)) 0 (by omega)

/-- Tiles not on the flip list are untouched by the toggle loop. -/
theorem mem_foldl_toggle_of_not_mem (a : Nat) :
    ∀ (L : List Nat), a ∉ L → ∀ s : Finset Nat,
      (a ∈ L.foldl toggle s ↔ a ∈ s) := by
  intro L
  induction L with
  | nil => intro _ s; simp
  | cons b rest ih =>
    intro h s
    have hab : a ≠ b := fun hh => h (hh ▸ List.mem_cons_self b rest)
    have hrest : a ∉ rest := fun hh => h (List.mem_cons_of_mem _ hh)
    rw [List.foldl_cons, ih hrest]
    unfold toggle
    split
    · simp [Finset.mem_erase, hab]
    · simp [Finset.mem_insert, hab]

/-- Tiles on the (duplicate-free) flip list have their membership toggled
by the loop. -/
theorem mem_foldl_toggle_of_mem (a : Nat) :
    ∀ (L : List Nat), L.Nodup → a ∈ L → ∀ s : Finset Nat,
      (a ∈ L.foldl toggle s ↔ a ∉ s) := by
  intro L
  induction L with
  | nil => intro _ h; simp at h
  | cons b rest ih =>
    intro hnd h s
    obtain ⟨hb, hrestnd⟩ := List.nodup_cons.mp hnd
    rw [List.foldl_cons]
    rcases List.mem_cons.mp h with rfl | hmem
    · rw [mem_foldl_toggle_of_not_mem a rest hb]
      unfold toggle
      by_cases hs : a ∈ s
      · simp [hs, Finset.mem_erase]
      · simp [hs, Finset.mem_insert]
    · have hab : a ≠ b := fun hh => hb (hh ▸ hmem)
      rw [ih hrestnd hmem]
      unfold toggle
      split
      · simp [Finset.mem_erase, hab]
      · simp [Finset.mem_insert, hab]

/-- The flip list never repeats an address: the two sorted halves are each
duplicate-free and come from disjoint sets. -/
theorem tilesToFlip_nodup (B : Finset Nat) : (tilesToFlip B).Nodup := by
  unfold tilesToFlip
  refine List.Nodup.append (Finset.sort_nodup _ _) (Finset.sort_nodup _ _) ?_
  intro a ha hb
  rw [Finset.mem_sort] at ha hb
  have h1 : a ∈ B := (Finset.mem_filter.mp ha).1
  have h2 := (Finset.mem_filter.mp hb).1
  unfold whiteTiles at h2
  exact (Finset.mem_sdiff.mp h2).2 h1

/-- Membership in the flip list. -/
theorem mem_tilesToFlip (B : Finset Nat) (a : Nat) :
    a ∈ tilesToFlip B ↔ a ∈ blackFlips B ∨ a ∈ whiteFlips B := by
  unfold tilesToFlip
  simp [List.mem_append, Finset.mem_sort]

/-- `blackFlips` membership in terms of the full neighbor count. -/
theorem mem_blackFlips (B : Finset Nat) (a : Nat) :
    a ∈ blackFlips B ↔
      a ∈ B ∧ (blackNeighborCount a B = 0 ∨ 2 < blackNeighborCount a B) := by
  unfold blackFlips
  rw [Finset.mem_filter, countAdjacentBlackTiles_eq]
  constructor
  · rintro ⟨h1, h2⟩
    exact ⟨h1, by omega⟩
  · rintro ⟨h1, h2⟩
    exact ⟨h1, by omega⟩

/-- `whiteFlips` membership in terms of the full neighbor count. -/
theorem mem_whiteFlips (B : Finset Nat) (a : Nat) :
    a ∈ whiteFlips B ↔ a ∈ whiteTiles B ∧ blackNeighborCount a B = 2 := by
  unfold whiteFlips
  rw [Finset.mem_filter, countAdjacentBlackTiles_eq]
  constructor
  · rintro ⟨h1, h2⟩
    exact ⟨h1, by omega⟩
  · rintro ⟨h1, h2⟩
    exact ⟨h1, by omega⟩

/-- C2: in each hex generation, evaluated strictly against the pre-step
black set `B`: a black tile stays black iff its black-neighbor count is
neither 0 nor greater than 2; a white tile becomes black iff it is a
neighbor of a current black tile and its black-neighbor count is exactly
2; nothing else enters the new set, and the toggles of the batch do not
influence each other (all counts are over `B`). -/
theorem c2_hex_generation_rule (B : Finset Nat) (a : Nat) :
    a ∈ evolveTiles B ↔
      ((a ∈ B ∧ ¬ (blackNeighborCount a B = 0 ∨ 2 < blackNeighborCount a B)) ∨
       (a ∉ B ∧ a ∈ whiteTiles B ∧ blackNeighborCount a B = 2)) := by
  have hWnotB : a ∈ whiteTiles B → a ∉ B := by
    intro h
    unfold whiteTiles at h
    exact (Finset.mem_sdiff.mp h).2
  unfold evolveTiles
  by_cases hf : a ∈ tilesToFlip B
  · rw [mem_foldl_toggle_of_mem a (tilesToFlip B) (tilesToFlip_nodup B) hf B]
    rcases (mem_tilesToFlip B a).mp hf with hbf | hwf
    · obtain ⟨haB, hbad⟩ := (mem_blackFlips B a).mp hbf
      simp [haB, hbad]
    · obtain ⟨haW, h2⟩ := (mem_whiteFlips B a).mp hwf
      have haB := hWnotB haW
      simp [haB, haW, h2]
  · rw [mem_foldl_toggle_of_not_mem a (tilesToFlip B) hf B]
    have hnbf : a ∉ blackFlips B := fun hh => hf ((mem_tilesToFlip B a).mpr (Or.inl hh))
    have hnwf : a ∉ whiteFlips B := fun hh => hf ((mem_tilesToFlip B a).mpr (Or.inr hh))
    by_cases haB : a ∈ B
    · have hgood : ¬ (blackNeighborCount a B = 0 ∨ 2 < blackNeighborCount a B) :=
        fun hbad => hnbf ((mem_blackFlips B a).mpr ⟨haB, hbad⟩)
      simp [haB, hgood]
    · constructor
      · intro hh
        exact absurd hh haB
      · rintro (⟨h1, _⟩ | ⟨_, hW, h2⟩)
        · exact absurd h1 haB
        · exact absurd ((mem_whiteFlips B a).mpr ⟨hW, h2⟩) hnwf

/-- The two black-flip sets coincide: the early exit changes no outcome. -/
theorem blackFlips_eq_full (B : Finset Nat) : blackFlips B = blackFlipsFull B := by
  unfold blackFlips blackFlipsFull
  apply Finset.filter_congr
  intro a _
  rw [countAdjacentBlackTiles_eq]
  constructor <;> intro h <;> omega

/-- The two white-flip sets coincide: the early exit changes no outcome. -/
theorem whiteFlips_eq_full (B : Finset Nat) : whiteFlips B = whiteFlipsFull B := by
  unfold whiteFlips whiteFlipsFull
  apply Finset.filter_congr
  intro a _
  rw [countAdjacentBlackTiles_eq]
  constructor <;> intro h <;> omega

/-- `evolve_tiles` computes the same new set with or without early exits. -/
theorem evolveTiles_eq_full (B : Finset Nat) : evolveTiles B = evolveTilesFull B := by
  unfold evolveTiles evolveTilesFull tilesToFlip
  rw [blackFlips_eq_full, whiteFlips_eq_full]

end Day24

namespace Day11

/-- The early-exiting counter (not expecting zero) equals the full
direction scan capped at 5. -/
theorem countAux_false_eq (l : Layout) (row column : Int) (ts : List (Int × Int)) :
    ∀ k : Int, 0 ≤ k → k < 5 →
      l.countAux row column false ts k =
        min (k + (ts.countP (fun d => l.hasAdjacentOccupant row column d.1 d.2) : Int)) 5 := by
  induction ts with
  | nil =>
    intro k h0 h5
    simp [Layout.countAux]
    omega
  | cons d rest ih =>
    intro k h0 h5
    by_cases hd : l.hasAdjacentOccupant row column d.1 d.2
    · by_cases h51 : (5 : Int) ≤ k + 1
      · simp [Layout.countAux, hd, h51, List.countP_cons]
        omega
      · simp [Layout.countAux, hd, h51, List.countP_cons, ih (k + 1) (by omega) (by omega)]
        omega
    · simp [Layout.countAux, hd, List.countP_cons, ih k h0 h5]

/-- The early-exiting counter (expecting zero) equals the full scan capped
at 1. -/
theorem countAux_true_eq (l : Layout) (row column : Int) (ts : List (Int × Int)) :
    l.countAux row column true ts 0 =
      min ((ts.countP (fun d => l.hasAdjacentOccupant row column d.1 d.2) : Int)) 1 := by
  induction ts with
  | nil => simp [Layout.countAux]
  | cons d rest ih =>
    by_cases hd : l.hasAdjacentOccupant row column d.1 d.2
    · simp [Layout.countAux, hd, List.countP_cons]
    · simp [Layout.countAux, hd, List.countP_cons, ih]

/-- The abandonment threshold is at most the early-exit cap 5. -/
theorem abandonmentThreshold_le (l : Layout) :
    0 < l.abandonmentThreshold ∧ l.abandonmentThreshold ≤ 5 := by
  unfold Layout.abandonmentThreshold
  split <;> norm_num

/-- Per cell, the early-exiting counts and the full-scan counts put the
same entry (or no entry) into the changeset. -/
theorem cellChange_eq_cellChangeFull (l : Layout) (row column : Int) :
    l.cellChange row column = l.cellChangeFull row column := by
  unfold Layout.cellChange Layout.cellChangeFull Layout.countAdjacentOccupants
  cases l.getCell row column
  · rfl
  · rw [countAux_true_eq]
    unfold Layout.occupantDirectionCount
    by_cases hc : ((List.countP (fun d => l.hasAdjacentOccupant row column d.1 d.2) directions : Nat) : Int) = 0
    · have hm : min ((List.countP (fun d => l.hasAdjacentOccupant row column d.1 d.2) directions : Nat) : Int) 1 = 0 := by
        omega
      simp [hc, hm]
    · have hm : ¬ (min ((List.countP (fun d => l.hasAdjacentOccupant row column d.1 d.2) directions : Nat) : Int) 1 = 0) := by
        omega
      simp [hc, hm]
  · rw [countAux_false_eq l row column directions 0 (by omega) (by omega)]
    unfold Layout.occupantDirectionCount
    obtain ⟨ht0, ht5⟩ := abandonmentThreshold_le l
    by_cases hc : l.abandonmentThreshold ≤ ((List.countP (fun d => l.hasAdjacentOccupant row column d.1 d.2) directions : Nat) : Int)
    · have hm : l.abandonmentThreshold ≤ min ((0 : Int) + ((List.countP (fun d => l.hasAdjacentOccupant row column d.1 d.2) directions : Nat) : Int)) 5 := by
        omega
      simp [hc, hm, ht5]
    · have hm : ¬ (l.abandonmentThreshold ≤ min ((0 : Int) + ((List.countP (fun d => l.hasAdjacentOccupant row column d.1 d.2) directions : Nat) : Int)) 5) := by
        omega
      simp [hc, hm]

/-- The whole changeset is insensitive to the early exits. -/
theorem collectChanges_eq_full (l : Layout) : l.collectChanges = l.collectChangesFull := by
  unfold Layout.collectChanges Layout.collectChangesFull
  simp only [cellChange_eq_cellChangeFull]

end Day11

/-- C6: the neighbor-count early exits have no semantic effect: for every
rectangular layout the changeset computed with the early-exiting counters
equals the changeset computed with a full scan of all eight directions,
and for every hex black-tile set the evolved set computed with the
early-exiting counter equals the one computed with a full scan of all six
neighbors. -/
theorem c6_early_exit_no_semantic_effect :
    (∀ l : Day11.Layout, l.collectChanges = l.collectChangesFull) ∧
    (∀ B : Finset Nat, Day24.evolveTiles B = Day24.evolveTilesFull B) :=
  ⟨Day11.collectChanges_eq_full, Day24.evolveTiles_eq_full⟩

namespace Day11

/-- In-bounds reads on a well-formed layout always succeed. -/
theorem getCell?_isSome (l : Layout)
    (hlen : l.map.length = (l.rowCount * l.columnCount).toNat)
    (row column : Int) (hr0 : 0 ≤ row) (hr1 : row < l.rowCount)
    (hc0 : 0 ≤ column) (hc1 : column < l.columnCount) :
    ∃ cell, l.getCell? row column = some cell := by
  unfold Layout.getCell? Layout.getAddress
  have hccpos : 0 < l.columnCount := lt_of_le_of_lt hc0 hc1
  have hmn : 0 ≤ row * l.columnCount := mul_nonneg hr0 hccpos.le
  have h0 : 0 ≤ row * l.columnCount + column := by linarith
  rw [if_pos h0]
  have h1 : row * l.columnCount + column < l.rowCount * l.columnCount := by
    have h2 : (row + 1) * l.columnCount ≤ l.rowCount * l.columnCount :=
      mul_le_mul_of_nonneg_right (by omega) hccpos.le
    have h3 : (row + 1) * l.columnCount = row * l.columnCount + l.columnCount := by
      ring
    linarith
  have hbpos : 0 < l.rowCount * l.columnCount := lt_of_le_of_lt h0 h1
  have hlt : (row * l.columnCount + column).toNat < l.map.length := by
    rw [hlen]
    exact (Int.toNat_lt_toNat hbpos).mpr h1
  exact ⟨_, List.getElem?_eq_getElem hlt⟩

/-- The walk result is stable under adding fuel. -/
theorem hasAdjacentOccupant?_mono (l : Layout) :
    ∀ (fuel : Nat) (row column dx dy : Int) (b : Bool),
      l.hasAdjacentOccupant? fuel row column dx dy = some b →
      ∀ extra : Nat, l.hasAdjacentOccupant? (fuel + extra) row column dx dy = some b := by
  intro fuel
  induction fuel with
  | zero =>
    intro row column dx dy b h extra
    simp [Layout.hasAdjacentOccupant?] at h
  | succ fuel ih =>
    intro row column dx dy b h extra
    rw [show fuel + 1 + extra = (fuel + extra) + 1 by omega]
    rw [Layout.hasAdjacentOccupant?] at h ⊢
    by_cases h1 : row + dy < 0 ∨ l.rowCount ≤ row + dy
    · simp only [if_pos h1] at h ⊢
      exact h
    · simp only [if_neg h1] at h ⊢
      by_cases h2 : column + dx < 0 ∨ l.columnCount ≤ column + dx
      · simp only [if_pos h2] at h ⊢
        exact h
      · simp only [if_neg h2] at h ⊢
        cases hc : l.getCell? (row + dy) (column + dx) with
        | none =>
          rw [hc] at h
          simp at h
        | some cell =>
          rw [hc] at h
          cases cell with
          | Floor =>
            have h' : (if l.lineOfSight = true then
                l.hasAdjacentOccupant? fuel (row + dy) (column + dx) dx dy
              else some false) = some b := h
            show (if l.lineOfSight = true then
                l.hasAdjacentOccupant? (fuel + extra) (row + dy) (column + dx) dx dy
              else some false) = some b
            by_cases hlos : l.lineOfSight = true
            · rw [if_pos hlos] at h' ⊢
              exact ih _ _ _ _ _ h' extra
            · rw [if_neg hlos] at h' ⊢
              exact h'
          | Empty => exact h
          | Occupied => exact h

/-- With fuel at least the walk measure, the walk completes with an
in-bounds read at every step. -/
theorem hasAdjacentOccupant?_adequate (l : Layout)
    (hlen : l.map.length = (l.rowCount * l.columnCount).toNat)
    (dx dy : Int) (hdx : dx = -1 ∨ dx = 0 ∨ dx = 1)
    (hdy : dy = -1 ∨ dy = 0 ∨ dy = 1) (hne : ¬ (dx = 0 ∧ dy = 0)) :
    ∀ (fuel : Nat) (row column : Int),
      0 ≤ row → row < l.rowCount → 0 ≤ column → column < l.columnCount →
      walkMeasure l dx dy row column ≤ fuel →
      ∃ b, l.hasAdjacentOccupant? fuel row column dx dy = some b := by
  intro fuel
  induction fuel with
  | zero =>
    intro row column hr0 hr1 hc0 hc1 hm
    exfalso
    unfold walkMeasure at hm
    rcases hdy with h | h | h <;> rcases hdx with g | g | g <;>
      ((norm_num [h, g] at hm) <;> omega)
  | succ fuel ih =>
    intro row column hr0 hr1 hc0 hc1 hm
    rw [Layout.hasAdjacentOccupant?]
    by_cases h1 : row + dy < 0 ∨ l.rowCount ≤ row + dy
    · exact ⟨false, by simp only [if_pos h1]⟩
    · simp only [if_neg h1]
      by_cases h2 : column + dx < 0 ∨ l.columnCount ≤ column + dx
      · exact ⟨false, by simp only [if_pos h2]⟩
      · simp only [if_neg h2]
        have h1' := h1
        have h2' := h2
        push_neg at h1' h2'
        obtain ⟨hr0', hr1'⟩ := h1'
        obtain ⟨hc0', hc1'⟩ := h2'
        obtain ⟨cell, hc⟩ :=
          getCell?_isSome l hlen (row + dy) (column + dx) (by omega) hr1' (by omega) hc1'
        rw [hc]
        cases cell with
        | Floor =>
          by_cases hlos : l.lineOfSight
          · simp only [if_pos hlos]
            have hmdec : walkMeasure l dx dy (row + dy) (column + dx) ≤ fuel := by
              unfold walkMeasure at hm ⊢
              rcases hdy with h | h | h <;> rcases hdx with g | g | g <;>
                ((norm_num [h, g] at hm ⊢) <;> omega)
            exact ih (row + dy) (column + dx) (by omega) hr1' (by omega) hc1' hmdec
          · exact ⟨false, by simp only [if_neg hlos]⟩
        | Empty => exact ⟨false, rfl⟩
        | Occupied => exact ⟨true, rfl⟩

/-- C10: for a well-formed layout, an in-bounds start and a unit direction,
the `has_adjacent_occupant` walk terminates within `defaultFuel` steps with
every map read in bounds (it returns `some`, never the `none` that flags an
out-of-bounds read or exhausted fuel), and the result is stable under any
larger fuel, matching the total function used by the simulation. -/
theorem c10_walk_in_bounds_terminates (l : Layout)
    (hlen : l.map.length = (l.rowCount * l.columnCount).toNat)
    (row column dx dy : Int)
    (hr0 : 0 ≤ row) (hr1 : row < l.rowCount) (hc0 : 0 ≤ column) (hc1 : column < l.columnCount)
    (hdx : dx = -1 ∨ dx = 0 ∨ dx = 1) (hdy : dy = -1 ∨ dy = 0 ∨ dy = 1)
    (hne : ¬ (dx = 0 ∧ dy = 0)) :
    ∀ fuel : Nat, l.defaultFuel ≤ fuel →
      l.hasAdjacentOccupant? fuel row column dx dy =
        some (l.hasAdjacentOccupant row column dx dy) := by
  have hmeas : walkMeasure l dx dy row column ≤ l.defaultFuel := by
    unfold walkMeasure Layout.defaultFuel
    rcases hdy with h | h | h <;> rcases hdx with g | g | g <;>
      ((norm_num [h, g]) <;> omega)
  obtain ⟨b, hb⟩ :=
    hasAdjacentOccupant?_adequate l hlen dx dy hdx hdy hne l.defaultFuel row column
      hr0 hr1 hc0 hc1 hmeas
  intro fuel hf
  have hmono := hasAdjacentOccupant?_mono l l.defaultFuel row column dx dy b hb
    (fuel - l.defaultFuel)
  rw [show l.defaultFuel + (fuel - l.defaultFuel) = fuel by omega] at hmono
  rw [hmono]
  unfold Layout.hasAdjacentOccupant
  rw [hb]
  rfl

/-- Witness for C10 on the 1×1 occupied grid, walking east from (0, 0). -/
theorem c10_witness :
    occupiedOnly1.hasAdjacentOccupant? occupiedOnly1.defaultFuel 0 0 1 0 =
      some (occupiedOnly1.hasAdjacentOccupant 0 0 1 0) :=
  c10_walk_in_bounds_terminates occupiedOnly1 (by decide) 0 0 1 0 (by decide) (by decide)
    (by decide) (by decide) (by decide) (by decide) (by decide)
    occupiedOnly1.defaultFuel (le_refl _)

end Day11

namespace Day11

/-- Membership in the embedded `0..n` range. -/
theorem mem_intRange (i n : Int) : i ∈ intRange n ↔ 0 ≤ i ∧ i < n := by
  unfold intRange
  simp only [List.mem_map, List.mem_range]
  constructor
  · rintro ⟨k, hk, rfl⟩
    omega
  · rintro ⟨h0, h1⟩
    exact ⟨i.toNat, by omega, by omega⟩

/-- Elements of the embedded range are pairwise distinct nonnegatives. -/
theorem intRange_pairwise (n : Int) :
    (intRange n).Pairwise (fun a b => 0 ≤ a ∧ 0 ≤ b ∧ a ≠ b) := by
  unfold intRange
  rw [List.pairwise_map]
  apply (List.pairwise_lt_range n.toNat).imp
  intro a b hab
  refine ⟨by omega, by omega, by omega⟩

/-- The embedded range has no duplicates. -/
theorem intRange_nodup (n : Int) : (intRange n).Nodup :=
  (intRange_pairwise n).imp (fun h => h.2.2)

/-- Every change emitted for a cell carries that cell's address. -/
theorem cellChange_address (l : Layout) (row column : Int) (ch : Change)
    (h : l.cellChange row column = some ch) :
    ch.address = l.getAddress row column := by
  unfold Layout.cellChange at h
  rcases hcell : l.getCell row column with _ | _ | _ <;> rw [hcell] at h
  · exact absurd h (by simp)
  · by_cases hc : l.countAdjacentOccupants row column true = 0
    · rw [if_pos hc] at h
      cases h
      rfl
    · rw [if_neg hc] at h
      exact absurd h (by simp)
  · by_cases hc : l.abandonmentThreshold ≤ l.countAdjacentOccupants row column false
    · rw [if_pos hc] at h
      cases h
      rfl
    · rw [if_neg hc] at h
      exact absurd h (by simp)

/-- The changeset holds exactly the changes of the in-bounds cells. -/
theorem mem_collectChanges (l : Layout) (ch : Change) :
    ch ∈ l.collectChanges ↔
      ∃ row column, (0 ≤ row ∧ row < l.rowCount) ∧
        (0 ≤ column ∧ column < l.columnCount) ∧
        l.cellChange row column = some ch := by
  unfold Layout.collectChanges
  rw [List.mem_flatMap]
  constructor
  · rintro ⟨row, hrow, hmem⟩
    obtain ⟨column, hcol, hcc⟩ := List.mem_filterMap.mp hmem
    exact ⟨row, column, (mem_intRange row l.rowCount).mp hrow,
      (mem_intRange column l.columnCount).mp hcol, hcc⟩
  · rintro ⟨row, column, hrow, hcol, hcc⟩
    exact ⟨row, (mem_intRange row l.rowCount).mpr hrow,
      List.mem_filterMap.mpr ⟨column, (mem_intRange column l.columnCount).mpr hcol, hcc⟩⟩

/-- In-bounds addresses stay below the map length. -/
theorem getAddress_lt (l : Layout)
    (hlen : l.map.length = (l.rowCount * l.columnCount).toNat)
    (row column : Int)
    (hr0 : 0 ≤ row) (hr1 : row < l.rowCount) (hc0 : 0 ≤ column) (hc1 : column < l.columnCount) :
    l.getAddress row column < l.map.length := by
  unfold Layout.getAddress
  have hccpos : 0 < l.columnCount := lt_of_le_of_lt hc0 hc1
  have hmn : 0 ≤ row * l.columnCount := mul_nonneg hr0 hccpos.le
  have h0 : 0 ≤ row * l.columnCount + column := by linarith
  have h1 : row * l.columnCount + column < l.rowCount * l.columnCount := by
    have h2 : (row + 1) * l.columnCount ≤ l.rowCount * l.columnCount :=
      mul_le_mul_of_nonneg_right (by omega) hccpos.le
    have h3 : (row + 1) * l.columnCount = row * l.columnCount + l.columnCount := by
      ring
    linarith
  have hbpos : 0 < l.rowCount * l.columnCount := lt_of_le_of_lt h0 h1
  rw [hlen]
  exact (Int.toNat_lt_toNat hbpos).mpr h1

/-- `getCell` through the optional read. -/
theorem getCell_eq_getElem? (l : Layout) (row column : Int) :
    l.getCell row column = (l.map[l.getAddress row column]?).getD Cell.Floor := by
  unfold Layout.getCell
  rw [List.getD_eq_getElem?_getD]

/-- Bridge: the `expecting_zero` early-exit count is zero exactly when the
full scan finds no occupied direction. -/
theorem countTrue_zero_iff (l : Layout) (row column : Int) :
    l.countAdjacentOccupants row column true = 0 ↔
      l.occupantDirectionCount row column = 0 := by
  unfold Layout.countAdjacentOccupants Layout.occupantDirectionCount
  rw [countAux_true_eq]
  omega

/-- Bridge: the early-exit count clears the abandonment threshold exactly
when the full scan does. -/
theorem countFalse_threshold_iff (l : Layout) (row column : Int) :
    (l.abandonmentThreshold ≤ l.countAdjacentOccupants row column false) ↔
      ((if l.lineOfSight then 5 else 4) ≤ l.occupantDirectionCount row column) := by
  unfold Layout.countAdjacentOccupants Layout.occupantDirectionCount
    Layout.abandonmentThreshold
  rw [countAux_false_eq l row column directions 0 (by omega) (by omega)]
  cases l.lineOfSight <;> simp <;> omega

end Day11

namespace Day11

/-- `filterMap` keeps a duplicate-free list duplicate-free when the
function is injective on list members at shared outputs. -/
theorem nodup_filterMap_of_inj_on {α β : Type} (f : α → Option β) :
    ∀ L : List α, L.Nodup →
      (∀ a ∈ L, ∀ a' ∈ L, ∀ b, f a = some b → f a' = some b → a = a') →
      (L.filterMap f).Nodup := by
  intro L
  induction L with
  | nil =>
    intro _ _
    simp
  | cons x xs ih =>
    intro hnd hinj
    obtain ⟨hx, hxs⟩ := List.nodup_cons.mp hnd
    rw [List.filterMap_cons]
    have hrest : (xs.filterMap f).Nodup :=
      ih hxs (fun a ha a' ha' b h1 h2 =>
        hinj a (List.mem_cons_of_mem x ha) a' (List.mem_cons_of_mem x ha') b h1 h2)
    cases hfx : f x with
    | none => exact hrest
    | some b =>
      rw [List.nodup_cons]
      refine ⟨?_, hrest⟩
      intro hmem
      obtain ⟨a, ha, hfa⟩ := List.mem_filterMap.mp hmem
      have hax : x = a :=
        hinj x (List.mem_cons_self x xs) a (List.mem_cons_of_mem x ha) b hfx hfa
      exact hx (hax ▸ ha)

/-- The changeset's addresses are pairwise distinct: within one row the
column determines the address, and distinct rows occupy disjoint address
bands. -/
theorem collectChanges_addresses_nodup (l : Layout) :
    ((l.collectChanges).map Change.address).Nodup := by
  unfold Layout.collectChanges
  rw [List.map_flatMap, List.nodup_flatMap]
  constructor
  · intro row hrow
    obtain ⟨hr0, _⟩ := (mem_intRange row l.rowCount).mp hrow
    rw [List.map_filterMap]
    apply nodup_filterMap_of_inj_on _ _ (intRange_nodup l.columnCount)
    intro c hc c' hc' b h1 h2
    obtain ⟨hc0, hc1⟩ := (mem_intRange c l.columnCount).mp hc
    obtain ⟨hc0', hc1'⟩ := (mem_intRange c' l.columnCount).mp hc'
    obtain ⟨ch, hch, hb⟩ := Option.map_eq_some'.mp h1
    obtain ⟨ch', hch', hb'⟩ := Option.map_eq_some'.mp h2
    have ha : b = l.getAddress row c := hb ▸ cellChange_address l row c ch hch
    have ha' : b = l.getAddress row c' := hb' ▸ cellChange_address l row c' ch' hch'
    exact (getAddress_inj l row c row c' hr0 hc0 hc1 hr0 hc0' hc1'
      (ha ▸ ha')).2
  · apply (intRange_pairwise l.rowCount).imp
    intro row row' hrr
    obtain ⟨hr0, hr0', hne⟩ := hrr
    intro b hb hb'
    dsimp only at hb hb'
    rw [List.map_filterMap, List.mem_filterMap] at hb hb'
    obtain ⟨c, hc, h1⟩ := hb
    obtain ⟨c', hc', h2⟩ := hb'
    obtain ⟨hc0, hc1⟩ := (mem_intRange c l.columnCount).mp hc
    obtain ⟨hc0', hc1'⟩ := (mem_intRange c' l.columnCount).mp hc'
    obtain ⟨ch, hch, hbeq⟩ := Option.map_eq_some'.mp h1
    obtain ⟨ch', hch', hbeq'⟩ := Option.map_eq_some'.mp h2
    have ha : b = l.getAddress row c := hbeq ▸ cellChange_address l row c ch hch
    have ha' : b = l.getAddress row' c' := hbeq' ▸ cellChange_address l row' c' ch' hch'
    exact hne (getAddress_inj l row c row' c' hr0 hc0 hc1 hr0' hc0' hc1'
      (ha ▸ ha')).1

/-- Applying a changeset never changes the map's length. -/
theorem foldl_set_length (cs : List Change) :
    ∀ m : List Cell,
      (cs.foldl (fun mm c => mm.set c.address c.cell) m).length = m.length := by
  induction cs with
  | nil => intro m; rfl
  | cons c rest ih =>
    intro m
    rw [List.foldl_cons, ih (m.set c.address c.cell), List.length_set]

/-- Positions no change targets keep their old content. -/
theorem foldl_set_getElem?_not_mem (cs : List Change) :
    ∀ (m : List Cell) (i : Nat), (∀ c ∈ cs, c.address ≠ i) →
      (cs.foldl (fun mm c => mm.set c.address c.cell) m)[i]? = m[i]? := by
  induction cs with
  | nil =>
    intro m i _
    rfl
  | cons c rest ih =>
    intro m i h
    rw [List.foldl_cons, ih _ i (fun c' hc' => h c' (List.mem_cons_of_mem c hc'))]
    exact List.getElem?_set_ne (h c (List.mem_cons_self c rest))

/-- A position targeted by exactly one change receives that change. -/
theorem foldl_set_getElem?_mem (cs : List Change) :
    ∀ (m : List Cell) (ch : Change),
      (cs.map Change.address).Nodup → ch ∈ cs → ch.address < m.length →
      (cs.foldl (fun mm c => mm.set c.address c.cell) m)[ch.address]? = some ch.cell := by
  induction cs with
  | nil =>
    intro m ch _ h _
    simp at h
  | cons c rest ih =>
    intro m ch hnd hmem hlt
    rw [List.map_cons, List.nodup_cons] at hnd
    obtain ⟨hcnotin, hndrest⟩ := hnd
    rw [List.foldl_cons]
    rcases List.mem_cons.mp hmem with rfl | hmemrest
    · rw [foldl_set_getElem?_not_mem rest _ ch.address ?_]
      · exact List.getElem?_set_self hlt
      · intro c' hc' heq
        exact hcnotin (heq ▸ List.mem_map_of_mem Change.address hc')
    · exact ih _ ch hndrest hmemrest (by rw [List.length_set]; exact hlt)

end Day11

namespace Day11

/-- C1: each generation, evaluated entirely against the previous-generation
snapshot: a Floor cell never changes; an Empty cell becomes Occupied iff
its occupied-neighbor count is 0; an Occupied cell becomes Empty iff its
count reaches the threshold (4 adjacent, 5 line-of-sight); every other
cell keeps its state.  The counts on the right-hand side are full scans of
the snapshot `l`, never of the new generation. -/
theorem c1_generation_rule (l : Layout)
    (hlen : l.map.length = (l.rowCount * l.columnCount).toNat)
    (row column : Int)
    (hr0 : 0 ≤ row) (hr1 : row < l.rowCount)
    (hc0 : 0 ≤ column) (hc1 : column < l.columnCount) :
    l.nextGen.getCell row column =
      (match l.getCell row column with
       | Cell.Floor => Cell.Floor
       | Cell.Empty =>
         if l.occupantDirectionCount row column = 0 then Cell.Occupied else Cell.Empty
       | Cell.Occupied =>
         if (if l.lineOfSight then 5 else 4) ≤ l.occupantDirectionCount row column then
           Cell.Empty
         else Cell.Occupied) := by
  have hndup := collectChanges_addresses_nodup l
  have hlt := getAddress_lt l hlen row column hr0 hr1 hc0 hc1
  have hread : l.nextGen.getCell row column =
      ((l.collectChanges.foldl (fun mm c => mm.set c.address c.cell)
        l.map)[l.getAddress row column]?).getD Cell.Floor :=
    getCell_eq_getElem? l.nextGen row column
  cases hcc : l.cellChange row column with
  | some ch =>
    have hchmem : ch ∈ l.collectChanges :=
      (mem_collectChanges l ch).mpr ⟨row, column, ⟨hr0, hr1⟩, ⟨hc0, hc1⟩, hcc⟩
    have haddr : ch.address = l.getAddress row column :=
      cellChange_address l row column ch hcc
    have hget : (l.collectChanges.foldl (fun mm c => mm.set c.address c.cell)
        l.map)[l.getAddress row column]? = some ch.cell := by
      rw [← haddr]
      exact foldl_set_getElem?_mem l.collectChanges l.map ch hndup hchmem
        (by rw [haddr]; exact hlt)
    rw [hread, hget]
    unfold Layout.cellChange at hcc
    rcases hcell : l.getCell row column with _ | _ | _ <;> rw [hcell] at hcc
    · exact absurd hcc (by simp)
    · by_cases hz : l.countAdjacentOccupants row column true = 0
      · rw [if_pos hz] at hcc
        cases hcc
        have h0 : l.occupantDirectionCount row column = 0 :=
          (countTrue_zero_iff l row column).mp hz
        simp [h0]
      · rw [if_neg hz] at hcc
        exact absurd hcc (by simp)
    · by_cases ht : l.abandonmentThreshold ≤ l.countAdjacentOccupants row column false
      · rw [if_pos ht] at hcc
        cases hcc
        have hthr := (countFalse_threshold_iff l row column).mp ht
        simp [hthr]
      · rw [if_neg ht] at hcc
        exact absurd hcc (by simp)
  | none =>
    have hnot : ∀ c ∈ l.collectChanges, c.address ≠ l.getAddress row column := by
      intro c hcmem heq
      obtain ⟨r', c', ⟨hr0', hr1'⟩, ⟨hc0', hc1'⟩, hcc'⟩ :=
        (mem_collectChanges l c).mp hcmem
      have haddr' : c.address = l.getAddress r' c' := cellChange_address l r' c' c hcc'
      obtain ⟨hre, hce⟩ := getAddress_inj l r' c' row column hr0' hc0' hc1' hr0 hc0 hc1
        (by rw [← haddr', heq])
      rw [hre, hce, hcc] at hcc'
      exact Option.noConfusion hcc'
    have hsame : (l.collectChanges.foldl (fun mm c => mm.set c.address c.cell)
        l.map)[l.getAddress row column]? = l.map[l.getAddress row column]? :=
      foldl_set_getElem?_not_mem l.collectChanges l.map (l.getAddress row column) hnot
    rw [hread, hsame, ← getCell_eq_getElem? l row column]
    unfold Layout.cellChange at hcc
    rcases hcell : l.getCell row column with _ | _ | _ <;> rw [hcell] at hcc
    · by_cases hz : l.countAdjacentOccupants row column true = 0
      · rw [if_pos hz] at hcc
        exact absurd hcc (by simp)
      · have h0 : ¬ l.occupantDirectionCount row column = 0 :=
          fun hh => hz ((countTrue_zero_iff l row column).mpr hh)
        simp [h0]
    · by_cases ht : l.abandonmentThreshold ≤ l.countAdjacentOccupants row column false
      · rw [if_pos ht] at hcc
        exact absurd hcc (by simp)
      · have hthr : ¬ ((if l.lineOfSight then 5 else 4) ≤ l.occupantDirectionCount row column) :=
          fun hh => ht ((countFalse_threshold_iff l row column).mpr hh)
        simp [hthr]

/-- Witness for C1: the 1×1 occupied grid at its only cell. -/
theorem c1_witness :
    occupiedOnly1.nextGen.getCell 0 0 =
      (match occupiedOnly1.getCell 0 0 with
       | Cell.Floor => Cell.Floor
       | Cell.Empty =>
         if occupiedOnly1.occupantDirectionCount 0 0 = 0 then Cell.Occupied else Cell.Empty
       | Cell.Occupied =>
         if (if occupiedOnly1.lineOfSight then 5 else 4) ≤
             occupiedOnly1.occupantDirectionCount 0 0 then
           Cell.Empty
         else Cell.Occupied) :=
  c1_generation_rule occupiedOnly1 (by decide) 0 0 (by decide) (by decide)
    (by decide) (by decide)

end Day11
